import Mathlib

/-!
Shallow embedding of the stocker repository's core: the indicator engine and
signal generator (src/strategies.py, src/strategy.py), the trade simulator and
metrics calculator (src/backtester.py), and the strategy registry.  Prices and
capital are embedded as exact rationals; Python `int()` truncation is modelled
explicitly; pandas NaN cells are modelled as `Option` values whose comparisons
are false when either side is undefined.
-/

namespace Stocker

/-- A raw OHLCV bar (one row of the input DataFrame). Timestamps are the
strictly increasing index. -/
structure Bar where
  timestamp : ℕ
  open_ : ℚ
  high : ℚ
  low : ℚ
  close : ℚ
  volume : ℚ
deriving DecidableEq, Repr

/-- One analyzed row: the bar's close plus the indicator columns added by
`calculate_indicators`.  A pandas NaN cell is `none`. -/
structure IndRow where
  close : ℚ
  rsi : Option ℚ
  rsi_prev : Option ℚ
  fast_ma : Option ℚ
  slow_ma : Option ℚ
  fast_ma_prev : Option ℚ
  slow_ma_prev : Option ℚ
deriving DecidableEq, Repr

/-- Pandas comparison `a < b`: false when either operand is NaN (`none`). -/
def oLT (a b : Option ℚ) : Bool :=
  match a, b with
  | some x, some y => decide (x < y)
  | _, _ => false

/-- Pandas comparison `a <= b`: false when either operand is NaN (`none`). -/
def oLE (a b : Option ℚ) : Bool :=
  match a, b with
  | some x, some y => decide (x ≤ y)
  | _, _ => false

/-- Pandas comparison `a > b`. -/
def oGT (a b : Option ℚ) : Bool := oLT b a

/-- Pandas comparison `a >= b`. -/
def oGE (a b : Option ℚ) : Bool := oLE b a

/-- The per-profile constants of src/strategies.py (class attributes
RSI_OVERSOLD, RSI_OVERBOUGHT, FAST_MA_PERIOD, SLOW_MA_PERIOD). -/
structure ProfileParams where
  RSI_OVERSOLD : ℚ
  RSI_OVERBOUGHT : ℚ
  FAST_MA_PERIOD : ℕ
  SLOW_MA_PERIOD : ℕ
deriving DecidableEq, Repr

/-- ConservativeStrategy's constants. -/
def conservativeParams : ProfileParams := ⟨25, 75, 15, 60⟩

/-- BalancedStrategy's constants (the default profile). -/
def balancedParams : ProfileParams := ⟨30, 70, 10, 50⟩

/-- AggressiveStrategy's constants. -/
def aggressiveParams : ProfileParams := ⟨35, 65, 8, 40⟩

/-- BalancedStrategy.generate_signals' buy_condition over one row:
`(rsi_recovery | ma_crossover) & (close > slow_ma)`. -/
def balancedBuyCondition (p : ProfileParams) (r : IndRow) : Bool :=
  let rsi_recovery :=
    oGT r.rsi (some p.RSI_OVERSOLD) && oLE r.rsi_prev (some p.RSI_OVERSOLD) &&
    oGT r.fast_ma r.slow_ma
  let ma_crossover :=
    oGT r.fast_ma r.slow_ma && oLE r.fast_ma_prev r.slow_ma_prev &&
    oLT r.rsi (some p.RSI_OVERBOUGHT) && oGT r.rsi (some p.RSI_OVERSOLD)
  (rsi_recovery || ma_crossover) && oGT (some r.close) r.slow_ma

/-- BalancedStrategy.generate_signals' sell_condition over one row:
overbought RSI or a bearish MA crossover. -/
def balancedSellCondition (p : ProfileParams) (r : IndRow) : Bool :=
  oGT r.rsi (some p.RSI_OVERBOUGHT) ||
    (oLT r.fast_ma r.slow_ma && oGE r.fast_ma_prev r.slow_ma_prev)

/-- ConservativeStrategy.generate_signals' buy_condition over one row. -/
def conservativeBuyCondition (p : ProfileParams) (r : IndRow) : Bool :=
  oGT r.rsi (some p.RSI_OVERSOLD) && oLE r.rsi_prev (some p.RSI_OVERSOLD) &&
  oGT r.fast_ma r.slow_ma && oLE r.fast_ma_prev r.slow_ma_prev &&
  oGT (some r.close) r.slow_ma

/-- ConservativeStrategy.generate_signals' sell_condition over one row. -/
def conservativeSellCondition (p : ProfileParams) (r : IndRow) : Bool :=
  oGT r.rsi (some p.RSI_OVERBOUGHT) ||
    (oLT r.fast_ma r.slow_ma && oGE r.fast_ma_prev r.slow_ma_prev)

/-- AggressiveStrategy.generate_signals' buy_condition over one row. -/
def aggressiveBuyCondition (p : ProfileParams) (r : IndRow) : Bool :=
  let rsi_recovery :=
    oGT r.rsi (some p.RSI_OVERSOLD) && oLE r.rsi_prev (some p.RSI_OVERSOLD) &&
    oGT r.fast_ma r.slow_ma
  let ma_crossover :=
    oGT r.fast_ma r.slow_ma && oLE r.fast_ma_prev r.slow_ma_prev &&
    oLT r.rsi (some p.RSI_OVERBOUGHT)
  let strong_momentum :=
    oGT r.fast_ma r.slow_ma && oGT (some r.close) r.fast_ma &&
    oGT r.rsi (some 40) && oLT r.rsi (some p.RSI_OVERBOUGHT) &&
    oGT r.rsi r.rsi_prev
  (rsi_recovery || ma_crossover || strong_momentum) && oGT (some r.close) r.slow_ma

/-- AggressiveStrategy.generate_signals' sell_condition over one row. -/
def aggressiveSellCondition (p : ProfileParams) (r : IndRow) : Bool :=
  oGT r.rsi (some p.RSI_OVERBOUGHT) ||
    (oLT r.fast_ma r.slow_ma && oGE r.fast_ma_prev r.slow_ma_prev) ||
    oLT r.rsi (some p.RSI_OVERSOLD)

/-- The per-row effect of the three assignments in generate_signals:
`df['signal'] = 0`, then `df.loc[buy_condition, 'signal'] = 1`, then
`df.loc[sell_condition, 'signal'] = -1` — the sell assignment runs last and
overwrites the buy assignment on rows where both conditions hold. -/
def assignSignals (buy sell : Bool) : ℤ :=
  let s : ℤ := 0
  let s := if buy then 1 else s
  if sell then -1 else s

/-- BalancedStrategy's per-row signal. -/
def balancedSignal (p : ProfileParams) (r : IndRow) : ℤ :=
  assignSignals (balancedBuyCondition p r) (balancedSellCondition p r)

/-- ConservativeStrategy's per-row signal. -/
def conservativeSignal (p : ProfileParams) (r : IndRow) : ℤ :=
  assignSignals (conservativeBuyCondition p r) (conservativeSellCondition p r)

/-- AggressiveStrategy's per-row signal. -/
def aggressiveSignal (p : ProfileParams) (r : IndRow) : ℤ :=
  assignSignals (aggressiveBuyCondition p r) (aggressiveSellCondition p r)

/-- Python `int(x)` applied to a float/rational: truncation toward zero.
For a rational in lowest terms this is truncating division of the numerator
by the denominator. -/
def pyInt (x : ℚ) : ℤ := x.num.tdiv (x.den : ℤ)

/-- One row of the analyzed DataFrame as `_simulate_trades` reads it: the
index (`idx`), `row['close']` and `row['signal']`. -/
structure SignalBar where
  timestamp : ℕ
  close : ℚ
  signal : ℤ
deriving DecidableEq, Repr

/-- The `position` dict of `_simulate_trades`:
`{'shares': int, 'entry_price': float, 'entry_time': datetime}`. -/
structure Position where
  shares : ℕ
  entry_price : ℚ
  entry_time : ℕ
deriving DecidableEq, Repr

/-- One entry of the `trades` list appended by `_simulate_trades`. -/
structure Trade where
  entry_time : ℕ
  exit_time : ℕ
  entry_price : ℚ
  exit_price : ℚ
  shares : ℕ
  pnl : ℚ
  return_pct : ℚ
  exit_reason : String
deriving DecidableEq, Repr

/-- The Config fields `_simulate_trades` reads (env-configurable floats with
defaults 0.02, 0.04, 0.02, 1000). -/
structure SimConfig where
  STOP_LOSS_PCT : ℚ
  TAKE_PROFIT_PCT : ℚ
  RISK_PER_TRADE : ℚ
  MAX_POSITION_SIZE : ℚ
deriving DecidableEq, Repr

/-- The loop state of `_simulate_trades`: running capital, the optional open
position, the accumulated trade ledger and portfolio-value list. -/
structure SimState where
  capital : ℚ
  position : Option Position
  trades : List Trade
  portfolio_values : List ℚ
deriving DecidableEq, Repr

/-- The trade dict appended on every exit: pnl and return_pct are computed
from entry price, exit price and share count. -/
def mkTrade (p : Position) (exit_time : ℕ) (price : ℚ) (reason : String) : Trade :=
  { entry_time := p.entry_time
    exit_time := exit_time
    entry_price := p.entry_price
    exit_price := price
    shares := p.shares
    pnl := (price - p.entry_price) * p.shares
    return_pct := (price - p.entry_price) / p.entry_price * 100
    exit_reason := reason }

/-- The exit reason chosen on a stop-loss/take-profit exit:
`'stop_loss' if current_price <= stop_loss else 'take_profit'`. -/
def exitReasonFor (cfg : SimConfig) (p : Position) (price : ℚ) : String :=
  if price ≤ p.entry_price * (1 - cfg.STOP_LOSS_PCT) then "stop_loss" else "take_profit"

/-- Lines 89-109 of backtester.py: while a position is open, compute the
stop-loss and take-profit thresholds from the position's entry price and exit
when the bar's close crosses either one. -/
def checkExits (cfg : SimConfig) (st : SimState) (bar : SignalBar) : SimState :=
  match st.position with
  | none => st
  | some p =>
    if bar.close ≤ p.entry_price * (1 - cfg.STOP_LOSS_PCT) ∨
        p.entry_price * (1 + cfg.TAKE_PROFIT_PCT) ≤ bar.close then
      { st with
        capital := st.capital + bar.close * p.shares
        trades := st.trades ++ [mkTrade p bar.timestamp bar.close (exitReasonFor cfg p bar.close)]
        position := none }
    else st

/-- The share count the buy branch computes:
`min(int(risk_amount / risk_per_share), int(MAX_POSITION_SIZE / price))`. -/
def codeShares (cfg : SimConfig) (capital price : ℚ) : ℤ :=
  let risk_amount := capital * cfg.RISK_PER_TRADE
  let stop_loss_price := price * (1 - cfg.STOP_LOSS_PCT)
  let risk_per_share := price - stop_loss_price
  min (pyInt (risk_amount / risk_per_share)) (pyInt (cfg.MAX_POSITION_SIZE / price))

/-- Lines 111-148 of backtester.py: `if signal == 1 and position is None`
open a risk-sized position when affordable; `elif signal == -1 and position
is not None` close it with reason `'signal'`. -/
def tradeActions (cfg : SimConfig) (st : SimState) (bar : SignalBar) : SimState :=
  match st.position with
  | none =>
    if bar.signal = 1 then
      if 0 < bar.close - bar.close * (1 - cfg.STOP_LOSS_PCT) then
        if 0 < codeShares cfg st.capital bar.close ∧
            (codeShares cfg st.capital bar.close : ℚ) * bar.close ≤ st.capital then
          { st with
            capital := st.capital - codeShares cfg st.capital bar.close * bar.close
            position := some ⟨(codeShares cfg st.capital bar.close).toNat, bar.close,
              bar.timestamp⟩ }
        else st
      else st
    else st
  | some p =>
    if bar.signal = -1 then
      { st with
        capital := st.capital + bar.close * p.shares
        trades := st.trades ++ [mkTrade p bar.timestamp bar.close ("signal")]
        position := none }
    else st

/-- Lines 150-155: append this bar's portfolio value, capital plus the
mark-to-market value of any open position. -/
def recordValue (st : SimState) (bar : SignalBar) : SimState :=
  let pv := st.capital + (match st.position with
    | some p => (p.shares : ℚ) * bar.close
    | none => 0)
  { st with portfolio_values := st.portfolio_values ++ [pv] }

/-- One iteration of the `for idx, row in df.iterrows()` loop, in the source's
order: stop-loss/take-profit exits, then the signal-driven entry/exit, then
the portfolio-value append. -/
def step (cfg : SimConfig) (st : SimState) (bar : SignalBar) : SimState :=
  recordValue (tradeActions cfg (checkExits cfg st bar) bar) bar

/-- The loop state before the first bar. -/
def initState (initial_capital : ℚ) : SimState :=
  { capital := initial_capital, position := none, trades := [], portfolio_values := [] }

/-- The whole bar loop of `_simulate_trades`. -/
def runLoop (cfg : SimConfig) (initial_capital : ℚ) (bars : List SignalBar) : SimState :=
  bars.foldl (step cfg) (initState initial_capital)

/-- Lines 157-175: after the loop, a still-open position is closed at the
last bar's close with reason `'end_of_backtest'`, and the last
portfolio-value entry is overwritten with the realized capital. -/
def forceClose (st : SimState) (bars : List SignalBar) : SimState :=
  match st.position, bars.getLast? with
  | some p, some lastBar =>
    let final_price := lastBar.close
    let capital := st.capital + final_price * p.shares
    { capital := capital
      position := none
      trades := st.trades ++ [mkTrade p lastBar.timestamp final_price ("end_of_backtest")]
      portfolio_values := st.portfolio_values.dropLast ++ [capital] }
  | _, _ => st

/-- `Backtester._simulate_trades`: the bar loop followed by the end-of-run
force close. -/
def simulate_trades (cfg : SimConfig) (initial_capital : ℚ) (bars : List SignalBar) : SimState :=
  forceClose (runLoop cfg initial_capital bars) bars

/-- The result record `Backtester._calculate_metrics` builds (scalar fields;
the trades and portfolio series are returned alongside). -/
structure BacktestMetrics where
  initial_capital : ℚ
  final_capital : ℚ
  total_return : ℚ
  total_return_pct : ℚ
  num_trades : ℕ
  win_rate : ℚ
  avg_return : ℚ
  max_drawdown : ℚ
deriving DecidableEq, Repr

/-- `portfolio_value.expanding().max()`: the running maximum of the series. -/
def runningMaxAux (cur : ℚ) : List ℚ → List ℚ
  | [] => []
  | x :: xs => (max cur x) :: runningMaxAux (max cur x) xs

/-- The running maximum of a portfolio-value list. -/
def runningMax : List ℚ → List ℚ
  | [] => []
  | x :: xs => x :: runningMaxAux x xs

/-- `series.min()` of a nonempty list (0 on the unreachable empty list). -/
def listMin : List ℚ → ℚ
  | [] => 0
  | x :: xs => xs.foldl min x

/-- `Backtester._calculate_metrics`: the zero-trade branch returns the neutral
record; otherwise the metrics are reduced from the ledger and the
portfolio-value series. -/
def calculate_metrics (initial_capital : ℚ) (trades : List Trade)
    (portfolio_values : List ℚ) : BacktestMetrics :=
  if trades = [] then
    { initial_capital := initial_capital
      final_capital := initial_capital
      total_return := 0
      total_return_pct := 0
      num_trades := 0
      win_rate := 0
      avg_return := 0
      max_drawdown := 0 }
  else
    let final_capital := portfolio_values.getLastD 0
    let total_return := final_capital - initial_capital
    let total_return_pct := total_return / initial_capital * 100
    let winning := trades.filter (fun t => 0 < t.pnl)
    let win_rate := (winning.length : ℚ) / (trades.length : ℚ) * 100
    let avg_return := (trades.map Trade.return_pct).sum / (trades.length : ℚ)
    let rmax := runningMax portfolio_values
    let drawdown := List.zipWith (fun v m => (v - m) / m * 100) portfolio_values rmax
    { initial_capital := initial_capital
      final_capital := final_capital
      total_return := total_return
      total_return_pct := total_return_pct
      num_trades := trades.length
      win_rate := win_rate
      avg_return := avg_return
      max_drawdown := listMin drawdown }

/-- `SMAIndicator(close, window).sma_indicator()` at row `i`: the simple
average of the last `w` closes, NaN (`none`) until `w` closes are
available. -/
def smaAt (w : ℕ) (closes : List ℚ) (i : ℕ) : Option ℚ :=
  if w ≤ i + 1 then some ((((closes.take (i + 1)).drop (i + 1 - w)).sum) / (w : ℚ))
  else none

/-- The close-to-close difference feeding the RSI at row `i` (0 at row 0). -/
def deltaAt (closes : List ℚ) (i : ℕ) : ℚ := closes.getD i 0 - closes.getD (i - 1) 0

/-- The gain component of the RSI delta at row `i`. -/
def gainAt (closes : List ℚ) (i : ℕ) : ℚ := max (deltaAt closes i) 0

/-- The loss component of the RSI delta at row `i`. -/
def lossAt (closes : List ℚ) (i : ℕ) : ℚ := max (-(deltaAt closes i)) 0

/-- Modelled from the spec: the `ta` library's RSI smoothing is an external
dependency, embedded here as the spec's "standard relative-strength
computation over a configurable window" — a plain average of the first `w`
gains/losses, then Wilder smoothing. -/
def wilderAvg (f : ℕ → ℚ) (w : ℕ) : ℕ → ℚ
  | 0 => 0
  | i + 1 =>
    if i + 1 < w then 0
    else if i + 1 = w then (((List.range w).map (fun j => f (j + 1))).sum) / (w : ℚ)
    else (wilderAvg f w i * ((w : ℚ) - 1) + f (i + 1)) / (w : ℚ)

/-- Modelled from the spec: the RSI value at a row with enough history,
`100 - 100/(1 + avg_gain/avg_loss)` and 100 when the average loss is zero. -/
def rsiValue (w : ℕ) (closes : List ℚ) (i : ℕ) : ℚ :=
  let ag := wilderAvg (gainAt closes) w i
  let al := wilderAvg (lossAt closes) w i
  if al = 0 then 100 else 100 - 100 / (1 + ag / al)

/-- Modelled from the spec: `RSIIndicator(close, window).rsi()` at row `i` —
NaN (`none`) for the first `w` rows, the relative-strength value after. -/
def rsiAt (w : ℕ) (closes : List ℚ) (i : ℕ) : Option ℚ :=
  if w ≤ i then some (rsiValue w closes i) else none

/-- `column.shift(1)` read at row `i`: the previous row's value, NaN at row
0. -/
def prevOpt (f : ℕ → Option ℚ) (i : ℕ) : Option ℚ :=
  match i with
  | 0 => none
  | j + 1 => f j

/-- The indicator columns added by `StrategyProfile.calculate_indicators`:
RSI over the hard-coded window 14, the profile's fast/slow simple moving
averages, and the shifted previous-value columns — one row per input bar. -/
def calcIndicatorRows (p : ProfileParams) (bars : List Bar) : List IndRow :=
  let closes := bars.map Bar.close
  (List.range bars.length).map fun i =>
    { close := closes.getD i 0
      rsi := rsiAt 14 closes i
      rsi_prev := prevOpt (rsiAt 14 closes) i
      fast_ma := smaAt p.FAST_MA_PERIOD closes i
      slow_ma := smaAt p.SLOW_MA_PERIOD closes i
      fast_ma_prev := prevOpt (smaAt p.FAST_MA_PERIOD closes) i
      slow_ma_prev := prevOpt (smaAt p.SLOW_MA_PERIOD closes) i }

/-- The input DataFrame as `calculate_indicators` sees it: its rows and the
names of the columns it carries. -/
structure Frame where
  cols : List String
  rows : List Bar
deriving DecidableEq, Repr

/-- The columns `StrategyProfile.calculate_indicators` requires. -/
def requiredCols : List String := ["close", "high", "low"]

/-- `StrategyProfile.calculate_indicators` (strategies.py lines 32-58):
error on an empty frame, error on a missing required column, otherwise the
indicator rows, one per bar. -/
def calculate_indicators (p : ProfileParams) (f : Frame) : Except String (List IndRow) :=
  if f.rows = [] then .error ("Cannot calculate indicators on empty DataFrame")
  else if requiredCols.filter (fun c => ! f.cols.contains c) ≠ [] then
    .error ("Missing required columns")
  else .ok (calcIndicatorRows p f.rows)

/-- The STRATEGIES registry of strategies.py. -/
def STRATEGIES : List (String × ProfileParams) :=
  [("conservative", conservativeParams), ("balanced", balancedParams),
   ("aggressive", aggressiveParams)]

/-- `get_strategy` (strategies.py lines 298-316): lowercase the requested
name, then look it up in the registry; unknown names raise. -/
def get_strategy (name : String) : Except String ProfileParams :=
  let n := name.toLower
  match STRATEGIES.lookup n with
  | some p => .ok p
  | none => .error ("Unknown strategy: " ++ n)

/-! Concrete inputs used by witnesses and counterexamples. -/

/-- The default Config values: STOP_LOSS_PCT 0.02, TAKE_PROFIT_PCT 0.04,
RISK_PER_TRADE 0.02, MAX_POSITION_SIZE 1000. -/
def cfgDefaults : SimConfig := ⟨1/50, 1/25, 1/50, 1000⟩

/-- An env-configured Config with RISK_PER_TRADE 0.5 and the other defaults. -/
def cfgHighRisk : SimConfig := ⟨1/50, 1/25, 1/2, 1000⟩

/-- A single buy-signal bar at close 10. -/
def barBuy : SignalBar := ⟨0, 10, 1⟩

/-- A buy bar followed by a hold bar, both at close 10. -/
def barsTwo : List SignalBar := [⟨0, 10, 1⟩, ⟨1, 10, 0⟩]

/-- A single buy-signal bar at timestamp 5. -/
def barsOne : List SignalBar := [⟨5, 10, 1⟩]

/-- A single hold bar: a run that records no trades. -/
def barsHold : List SignalBar := [⟨0, 10, 0⟩]

/-! Small structural facts shared by the proofs. -/

theorem recordValue_position (st : SimState) (bar : SignalBar) :
    (recordValue st bar).position = st.position := rfl

theorem recordValue_trades (st : SimState) (bar : SignalBar) :
    (recordValue st bar).trades = st.trades := rfl

theorem recordValue_capital (st : SimState) (bar : SignalBar) :
    (recordValue st bar).capital = st.capital := rfl

/-- Claim C4: on an indicator row where the profile's buy condition and sell
condition are both true, the generated signal is Sell (−1): the buy
assignment runs first and the sell assignment runs afterwards over the same
row, so sell takes precedence — for each of the three profiles. -/
theorem sell_overrides_buy (p : ProfileParams) (r : IndRow) :
    (balancedBuyCondition p r = true → balancedSellCondition p r = true →
      balancedSignal p r = -1) ∧
    (conservativeBuyCondition p r = true → conservativeSellCondition p r = true →
      conservativeSignal p r = -1) ∧
    (aggressiveBuyCondition p r = true → aggressiveSellCondition p r = true →
      aggressiveSignal p r = -1) := by
  refine ⟨fun _ hs => ?_, fun _ hs => ?_, fun _ hs => ?_⟩ <;>
    simp [balancedSignal, conservativeSignal, aggressiveSignal, assignSignals, hs]

/-- Claim C6: a run that records zero trades produces the fully populated
neutral metrics record: final capital equals initial capital exactly,
win rate, average return, total return and max drawdown are all 0. -/
theorem zero_trades_neutral (cfg : SimConfig) (initial : ℚ) (bars : List SignalBar)
    (h : (simulate_trades cfg initial bars).trades = []) :
    calculate_metrics initial (simulate_trades cfg initial bars).trades
        (simulate_trades cfg initial bars).portfolio_values =
      { initial_capital := initial
        final_capital := initial
        total_return := 0
        total_return_pct := 0
        num_trades := 0
        win_rate := 0
        avg_return := 0
        max_drawdown := 0 } := by
  rw [h]
  simp [calculate_metrics]

/-- Witness for C6: a one-bar hold-only run records no trades and gets the
neutral metrics record. -/
theorem zero_trades_neutral_witness :
    calculate_metrics 10000 (simulate_trades cfgDefaults 10000 barsHold).trades
        (simulate_trades cfgDefaults 10000 barsHold).portfolio_values =
      { initial_capital := 10000
        final_capital := 10000
        total_return := 0
        total_return_pct := 0
        num_trades := 0
        win_rate := 0
        avg_return := 0
        max_drawdown := 0 } :=
  zero_trades_neutral cfgDefaults 10000 barsHold (by with_unfolding_all decide)

/-- How many Position objects the simulator state holds. -/
def positionsOpen (st : SimState) : ℕ :=
  match st.position with
  | some _ => 1
  | none => 0

/-- The spec's `Long` state: a position is open. -/
def isLong (st : SimState) : Bool := st.position.isSome

/-- Claim C9: at every point of the bar-by-bar replay (after any prefix of
the bars, and after the end-of-run close) the simulator holds at most one
position, exactly one while Long and zero while Flat. -/
theorem single_position_invariant (cfg : SimConfig) (initial : ℚ)
    (bars : List SignalBar) (n : ℕ) :
    positionsOpen (runLoop cfg initial (bars.take n)) ≤ 1 ∧
    (positionsOpen (runLoop cfg initial (bars.take n)) = 1 ↔
      isLong (runLoop cfg initial (bars.take n)) = true) ∧
    (positionsOpen (runLoop cfg initial (bars.take n)) = 0 ↔
      isLong (runLoop cfg initial (bars.take n)) = false) ∧
    positionsOpen (simulate_trades cfg initial bars) ≤ 1 := by
  refine ⟨?_, ?_, ?_, ?_⟩
  · cases h : (runLoop cfg initial (bars.take n)).position <;>
      simp [positionsOpen, h]
  · cases h : (runLoop cfg initial (bars.take n)).position <;>
      simp [positionsOpen, isLong, h]
  · cases h : (runLoop cfg initial (bars.take n)).position <;>
      simp [positionsOpen, isLong, h]
  · cases h : (simulate_trades cfg initial bars).position <;>
      simp [positionsOpen, h]

/-- Claim C7: the indicator engine fails exactly when the bar sequence is
empty or a required column is missing, and on every non-empty well-formed
input it succeeds with one indicator row per bar — insufficient history is
never an error. -/
theorem indicator_engine_contract (p : ProfileParams) (f : Frame) :
    ((∃ e, calculate_indicators p f = .error e) ↔
      (f.rows = [] ∨ ∃ c ∈ requiredCols, c ∉ f.cols)) ∧
    (∀ l, calculate_indicators p f = .ok l → l.length = f.rows.length) ∧
    (f.rows ≠ [] → (∀ c ∈ requiredCols, c ∈ f.cols) →
      calculate_indicators p f = .ok (calcIndicatorRows p f.rows)) := by
  by_cases hr : f.rows = []
  · refine ⟨⟨fun _ => Or.inl hr, fun _ => ?_⟩, fun l hl => ?_, fun hne _ => absurd hr hne⟩
    · exact ⟨"Cannot calculate indicators on empty DataFrame", by simp [calculate_indicators, hr]⟩
    · simp [calculate_indicators, hr] at hl
  · by_cases hm : requiredCols.filter (fun c => ! f.cols.contains c) = []
    · have hmem : ∀ c ∈ requiredCols, c ∈ f.cols := by
        intro c hc
        have h := List.filter_eq_nil_iff.mp hm c hc
        simpa using h
      have hok : calculate_indicators p f = .ok (calcIndicatorRows p f.rows) := by
        unfold calculate_indicators
        rw [if_neg hr, if_neg (not_ne_iff.mpr hm)]
      refine ⟨⟨fun ⟨e, he⟩ => absurd (hok ▸ he) (by simp), ?_⟩,
        fun l hl => ?_, fun _ _ => hok⟩
      · rintro (h | ⟨c, hc, hcc⟩)
        · exact absurd h hr
        · exact absurd (hmem c hc) hcc
      · rw [hok] at hl
        cases hl
        simp [calcIndicatorRows]
    · have herr : calculate_indicators p f = .error ("Missing required columns") := by
        unfold calculate_indicators
        rw [if_neg hr, if_pos hm]
      have hmiss : ∃ c ∈ requiredCols, c ∉ f.cols := by
        rcases List.exists_mem_of_ne_nil _ hm with ⟨c, hc⟩
        have hcf := List.mem_filter.mp hc
        refine ⟨c, hcf.1, ?_⟩
        have hb := hcf.2
        simp only [Bool.not_eq_true'] at hb
        simpa using hb
      refine ⟨⟨fun _ => Or.inr hmiss, fun _ => ⟨_, herr⟩⟩, fun l hl => ?_, fun _ hall => ?_⟩
      · rw [herr] at hl; cases hl
      · rcases hmiss with ⟨c, hc, hcc⟩
        exact absurd (hall c hc) hcc

/-- Counterexample to claim C8 as stated: strategy selection is
case-insensitive, so the name BALANCED — not one of the three lowercase
registry names — also succeeds rather than failing. -/
theorem strategy_name_case_cex :
    get_strategy "BALANCED" = .ok balancedParams ∧
    ¬ ("BALANCED" ∈ STRATEGIES.map Prod.fst) := by
  refine ⟨by with_unfolding_all rfl, ?_⟩
  simp [STRATEGIES]

/-- Claim C8 (amended): selection succeeds for exactly the names whose
lowercasing is one of the three registry names, and fails otherwise; the
registry's windows and thresholds are fixed positive constants (there is no
separate non-positive-window validation to trigger). -/
theorem strategy_selection_contract (name : String) :
    ((∃ p, get_strategy name = .ok p) ↔ name.toLower ∈ STRATEGIES.map Prod.fst) ∧
    (∀ q ∈ [conservativeParams, balancedParams, aggressiveParams],
      0 < q.FAST_MA_PERIOD ∧ 0 < q.SLOW_MA_PERIOD ∧
      0 < q.RSI_OVERSOLD ∧ q.RSI_OVERSOLD < q.RSI_OVERBOUGHT) := by
  constructor
  · by_cases h1 : name.toLower = "conservative"
    · simp [get_strategy, STRATEGIES, List.lookup, h1]
    · by_cases h2 : name.toLower = "balanced"
      · simp [get_strategy, STRATEGIES, List.lookup, h1, h2]
      · by_cases h3 : name.toLower = "aggressive"
        · simp [get_strategy, STRATEGIES, List.lookup, h1, h2, h3]
        · have e1 : (name.toLower == "conservative") = false := beq_eq_false_iff_ne.mpr h1
          have e2 : (name.toLower == "balanced") = false := beq_eq_false_iff_ne.mpr h2
          have e3 : (name.toLower == "aggressive") = false := beq_eq_false_iff_ne.mpr h3
          simp [get_strategy, STRATEGIES, List.lookup, e1, e2, e3, h1, h2, h3]
  · intro q hq
    simp only [List.mem_cons, List.mem_singleton, List.not_mem_nil, or_false] at hq
    rcases hq with rfl | rfl | rfl <;>
      norm_num [conservativeParams, balancedParams, aggressiveParams]

/-- Stated from the claim's words, for comparison with the code: shares =
floor(risk_amount / risk_per_share) capped by floor(max_position_notional /
close) AND by floor(capital / close). The code has no second cap; it skips
the buy instead when the sized position is unaffordable. -/
def specSharesC1 (cfg : SimConfig) (capital price : ℚ) : ℤ :=
  min (min ⌊capital * cfg.RISK_PER_TRADE / (price - price * (1 - cfg.STOP_LOSS_PCT))⌋
      ⌊cfg.MAX_POSITION_SIZE / price⌋)
    ⌊capital / price⌋

/-- Counterexample to claim C1 as stated: with RISK_PER_TRADE 0.5, capital
100 and a buy bar at close 10, the claim's formula yields shares = 10 > 0 and
predicts an entry, but the code computes 100 shares, finds 100×10 > capital,
and ignores the buy: no position is opened and capital is not debited. -/
theorem buy_capital_cap_cex :
    0 < specSharesC1 cfgHighRisk 100 10 ∧
    (step cfgHighRisk (initState 100) barBuy).position = none ∧
    (step cfgHighRisk (initState 100) barBuy).capital = 100 := by
  refine ⟨?_, ?_, ?_⟩
  · norm_num [specSharesC1, cfgHighRisk]
  · with_unfolding_all decide
  · with_unfolding_all decide

/-- Claim C1 (amended): in Flat state on a Buy signal with positive
risk-per-share, the code sizes shares = min(int(risk_amount/risk_per_share),
int(max_position_notional/close)) with no cap by floor(capital/close); it
opens the position and debits shares×close exactly when shares > 0 AND
shares×close ≤ capital, and otherwise ignores the buy unchanged. -/
theorem buy_entry_sizing (cfg : SimConfig) (st : SimState) (bar : SignalBar)
    (hpos : st.position = none) (hsig : bar.signal = 1)
    (hrps : 0 < bar.close - bar.close * (1 - cfg.STOP_LOSS_PCT)) :
    ((0 < codeShares cfg st.capital bar.close ∧
        (codeShares cfg st.capital bar.close : ℚ) * bar.close ≤ st.capital) →
      (step cfg st bar).position =
          some ⟨(codeShares cfg st.capital bar.close).toNat, bar.close, bar.timestamp⟩ ∧
        (step cfg st bar).capital =
          st.capital - codeShares cfg st.capital bar.close * bar.close ∧
        (step cfg st bar).trades = st.trades ∧
        (step cfg st bar).portfolio_values = st.portfolio_values ++ [st.capital]) ∧
    (¬ (0 < codeShares cfg st.capital bar.close ∧
        (codeShares cfg st.capital bar.close : ℚ) * bar.close ≤ st.capital) →
      (step cfg st bar).position = none ∧
        (step cfg st bar).capital = st.capital ∧
        (step cfg st bar).trades = st.trades ∧
        (step cfg st bar).portfolio_values = st.portfolio_values ++ [st.capital]) := by
  have hce : checkExits cfg st bar = st := by
    unfold checkExits
    rw [hpos]
  constructor
  · intro h
    have hta : tradeActions cfg (checkExits cfg st bar) bar =
        { st with
          capital := st.capital - codeShares cfg st.capital bar.close * bar.close
          position := some ⟨(codeShares cfg st.capital bar.close).toNat, bar.close,
            bar.timestamp⟩ } := by
      rw [hce]
      unfold tradeActions
      simp [hpos, hsig, hrps, h]
    have hsh : ((codeShares cfg st.capital bar.close).toNat : ℚ) =
        (codeShares cfg st.capital bar.close : ℚ) := by
      have hz := Int.toNat_of_nonneg h.1.le
      exact_mod_cast congrArg (fun z : ℤ => (z : ℚ)) hz
    refine ⟨?_, ?_, ?_, ?_⟩
    · show (recordValue _ _).position = _
      rw [recordValue_position, hta]
    · show (recordValue _ _).capital = _
      rw [recordValue_capital, hta]
    · show (recordValue _ _).trades = _
      rw [recordValue_trades, hta]
    · show (recordValue _ _).portfolio_values = _
      unfold recordValue
      rw [hta]
      simp only []
      congr 1
      simp only [List.cons.injEq, and_true]
      rw [hsh]
      ring
  · intro h
    have hta : tradeActions cfg (checkExits cfg st bar) bar = st := by
      rw [hce]
      unfold tradeActions
      simp [hpos, hsig, hrps, h]
    refine ⟨?_, ?_, ?_, ?_⟩
    · show (recordValue _ _).position = _
      rw [recordValue_position, hta, hpos]
    · show (recordValue _ _).capital = _
      rw [recordValue_capital, hta]
    · show (recordValue _ _).trades = _
      rw [recordValue_trades, hta]
    · show (recordValue _ _).portfolio_values = _
      unfold recordValue
      rw [hta]
      simp [hpos]

/-- Witness for C1: with the default config, capital 10000 and a buy bar at
close 10, the code opens a 100-share position and debits 1000. -/
theorem buy_entry_sizing_witness :
    (step cfgDefaults (initState 10000) barBuy).position =
        some ⟨(codeShares cfgDefaults (initState 10000).capital barBuy.close).toNat,
          barBuy.close, barBuy.timestamp⟩ ∧
      (step cfgDefaults (initState 10000) barBuy).capital =
        (initState 10000).capital -
          codeShares cfgDefaults (initState 10000).capital barBuy.close * barBuy.close ∧
      (step cfgDefaults (initState 10000) barBuy).trades = (initState 10000).trades ∧
      (step cfgDefaults (initState 10000) barBuy).portfolio_values =
        (initState 10000).portfolio_values ++ [(initState 10000).capital] :=
  (buy_entry_sizing cfgDefaults (initState 10000) barBuy rfl rfl
      (by norm_num [cfgDefaults, barBuy])).1
    ⟨by with_unfolding_all decide, by with_unfolding_all decide⟩

/-- A config whose (env-supplied) percentages make both thresholds crossable
at once: stop-loss 99, take-profit 90 from entry 100. -/
def cfgBothCross : SimConfig := ⟨1/100, -1/10, 0, 0⟩

/-- A state holding 10 shares entered at price 100. -/
def stBothCross : SimState := ⟨0, some ⟨10, 100, 0⟩, [], []⟩

/-- A hold bar at close 95, which crosses both thresholds of
`stBothCross` under `cfgBothCross`. -/
def barBothCross : SignalBar := ⟨1, 95, 0⟩

/-- Claim C5: while Long, stop_loss = entry×(1−stop_loss_pct) and
take_profit = entry×(1+take_profit_pct) are computed from the current
position's entry price; when the bar's close crosses either threshold the
position is closed, the proceeds are released into cash, and exactly one
Trade is recorded this bar with reason stop_loss when close ≤ stop_loss
(hence also whenever both thresholds are crossed) and take_profit
otherwise. -/
theorem stop_take_priority (cfg : SimConfig) (st : SimState) (bar : SignalBar) (p : Position)
    (hpos : st.position = some p)
    (hcross : bar.close ≤ p.entry_price * (1 - cfg.STOP_LOSS_PCT) ∨
      p.entry_price * (1 + cfg.TAKE_PROFIT_PCT) ≤ bar.close) :
    (checkExits cfg st bar).position = none ∧
    (checkExits cfg st bar).capital = st.capital + bar.close * p.shares ∧
    (step cfg st bar).trades =
      st.trades ++ [mkTrade p bar.timestamp bar.close (exitReasonFor cfg p bar.close)] ∧
    (bar.close ≤ p.entry_price * (1 - cfg.STOP_LOSS_PCT) →
      exitReasonFor cfg p bar.close = "stop_loss") ∧
    (¬ bar.close ≤ p.entry_price * (1 - cfg.STOP_LOSS_PCT) →
      exitReasonFor cfg p bar.close = "take_profit") := by
  have hce : checkExits cfg st bar =
      { st with
        capital := st.capital + bar.close * p.shares
        trades := st.trades ++ [mkTrade p bar.timestamp bar.close
          (exitReasonFor cfg p bar.close)]
        position := none } := by
    unfold checkExits
    rw [hpos]
    simp only []
    rw [if_pos hcross]
  refine ⟨by rw [hce], by rw [hce], ?_, fun hsl => by unfold exitReasonFor; rw [if_pos hsl],
    fun hsl => by unfold exitReasonFor; rw [if_neg hsl]⟩
  show (recordValue _ _).trades = _
  rw [recordValue_trades]
  unfold tradeActions
  rw [hce]
  simp only []
  split
  · split <;> rename_i hr
    · split <;> rfl
    · rfl
  · rfl

/-- Witness for C5: entry 100 with stop-loss pct 0.01 and take-profit pct
−0.1 gives stop_loss 99 and take_profit 90; the bar at close 95 crosses both
thresholds at once and the recorded reason is stop_loss. -/
theorem stop_take_priority_witness :
    (checkExits cfgBothCross stBothCross barBothCross).position = none ∧
    (checkExits cfgBothCross stBothCross barBothCross).capital =
      stBothCross.capital + barBothCross.close * (10 : ℕ) ∧
    (step cfgBothCross stBothCross barBothCross).trades =
      stBothCross.trades ++ [mkTrade ⟨10, 100, 0⟩ barBothCross.timestamp barBothCross.close
        (exitReasonFor cfgBothCross ⟨10, 100, 0⟩ barBothCross.close)] ∧
    (barBothCross.close ≤ (100 : ℚ) * (1 - cfgBothCross.STOP_LOSS_PCT) →
      exitReasonFor cfgBothCross ⟨10, 100, 0⟩ barBothCross.close = "stop_loss") ∧
    (¬ barBothCross.close ≤ (100 : ℚ) * (1 - cfgBothCross.STOP_LOSS_PCT) →
      exitReasonFor cfgBothCross ⟨10, 100, 0⟩ barBothCross.close = "take_profit") :=
  stop_take_priority cfgBothCross stBothCross barBothCross ⟨10, 100, 0⟩ rfl
    (Or.inl (by norm_num [cfgBothCross, stBothCross, barBothCross]))

/-- Every trade a single step appends carries one of the in-loop exit
reasons. -/
theorem step_trades_sub (cfg : SimConfig) (st : SimState) (bar : SignalBar) :
    ∀ t ∈ (step cfg st bar).trades, t ∈ st.trades ∨
      t.exit_reason = "stop_loss" ∨ t.exit_reason = "take_profit" ∨
      t.exit_reason = "signal" := by
  have hce : ∀ u ∈ (checkExits cfg st bar).trades, u ∈ st.trades ∨
      u.exit_reason = "stop_loss" ∨ u.exit_reason = "take_profit" := by
    intro u hu
    unfold checkExits at hu
    rcases hps : st.position with _ | p
    · simp only [hps] at hu
      exact Or.inl hu
    · simp only [hps] at hu
      split at hu
      · rcases List.mem_append.mp hu with h | h
        · exact Or.inl h
        · right
          rw [List.mem_singleton.mp h]
          unfold mkTrade exitReasonFor
          split
          · exact Or.inl rfl
          · exact Or.inr rfl
      · exact Or.inl hu
  have hta : ∀ (st2 : SimState), ∀ u ∈ (tradeActions cfg st2 bar).trades,
      u ∈ st2.trades ∨ u.exit_reason = "signal" := by
    intro st2 u hu
    unfold tradeActions at hu
    rcases hps : st2.position with _ | p
    · simp only [hps] at hu
      repeat' split at hu
      all_goals exact Or.inl hu
    · simp only [hps] at hu
      split at hu
      · rcases List.mem_append.mp hu with h | h
        · exact Or.inl h
        · right
          rw [List.mem_singleton.mp h]
          rfl
      · exact Or.inl hu
  intro t ht
  have ht2 : t ∈ (tradeActions cfg (checkExits cfg st bar) bar).trades := ht
  rcases hta (checkExits cfg st bar) t ht2 with h | h
  · rcases hce t h with h2 | h2
    · exact Or.inl h2
    · exact Or.inr (h2.imp id Or.inl)
  · exact Or.inr (Or.inr (Or.inr h))

/-- A trade predicate preserved by every step holds for every trade the bar
loop accumulates. -/
theorem runLoop_trades_pred (cfg : SimConfig) (P : Trade → Prop)
    (hstep : ∀ st bar t, t ∈ (step cfg st bar).trades → t ∈ st.trades ∨ P t) :
    ∀ (bars : List SignalBar) (st : SimState),
      (∀ t ∈ st.trades, P t) → ∀ t ∈ (bars.foldl (step cfg) st).trades, P t := by
  intro bars
  induction bars with
  | nil => intro st h; exact h
  | cons b bs ih =>
    intro st h
    exact ih (step cfg st b) (fun u hu => (hstep st b u hu).elim (h u) id)

/-- The valid exit-reason strings of the embedded simulator. -/
def exitReasons : List String := ["stop_loss", "take_profit", "signal", "end_of_backtest"]

/-- Every trade recorded by the bar loop has an in-loop exit reason. -/
theorem runLoop_reasons (cfg : SimConfig) (initial : ℚ) (bars : List SignalBar) :
    ∀ t ∈ (runLoop cfg initial bars).trades, t.exit_reason ∈ exitReasons := by
  refine runLoop_trades_pred cfg _ ?_ bars (initState initial) (by intro t ht; cases ht)
  intro st bar t ht
  rcases step_trades_sub cfg st bar t ht with h | h | h | h
  · exact Or.inl h
  · exact Or.inr (by rw [h]; unfold exitReasons; simp)
  · exact Or.inr (by rw [h]; unfold exitReasons; simp)
  · exact Or.inr (by rw [h]; unfold exitReasons; simp)

/-- Counterexample to claim C2 as stated: the force-closed trade's recorded
reason is the string end_of_backtest, not end_of_period. -/
theorem end_close_reason_cex :
    (simulate_trades cfgDefaults 10000 barsTwo).trades.map Trade.exit_reason =
      [("end_of_backtest" : String)] ∧
    ("end_of_backtest" : String) ≠ "end_of_period" := by
  refine ⟨by with_unfolding_all decide, by decide⟩

/-- Claim C2 (amended): when the simulator is still Long after the last bar,
the position is force-closed at the final close with reason end_of_backtest,
the proceeds are realized into cash, and the final equity point is
overwritten with the realized cash value; every recorded trade's exit reason
lies in {stop_loss, take_profit, signal, end_of_backtest}. -/
theorem end_of_run_force_close (cfg : SimConfig) (initial : ℚ) (bars : List SignalBar)
    (p : Position) (lb : SignalBar)
    (hpos : (runLoop cfg initial bars).position = some p)
    (hlast : bars.getLast? = some lb) :
    (simulate_trades cfg initial bars).trades =
      (runLoop cfg initial bars).trades ++
        [mkTrade p lb.timestamp lb.close ("end_of_backtest")] ∧
    (simulate_trades cfg initial bars).capital =
      (runLoop cfg initial bars).capital + lb.close * p.shares ∧
    (simulate_trades cfg initial bars).position = none ∧
    (simulate_trades cfg initial bars).portfolio_values =
      (runLoop cfg initial bars).portfolio_values.dropLast ++
        [(runLoop cfg initial bars).capital + lb.close * p.shares] ∧
    ∀ t ∈ (simulate_trades cfg initial bars).trades, t.exit_reason ∈ exitReasons := by
  have hfc : simulate_trades cfg initial bars =
      { capital := (runLoop cfg initial bars).capital + lb.close * p.shares
        position := none
        trades := (runLoop cfg initial bars).trades ++
          [mkTrade p lb.timestamp lb.close ("end_of_backtest")]
        portfolio_values := (runLoop cfg initial bars).portfolio_values.dropLast ++
          [(runLoop cfg initial bars).capital + lb.close * p.shares] } := by
    unfold simulate_trades forceClose
    rw [hpos, hlast]
  refine ⟨by rw [hfc], by rw [hfc], by rw [hfc], by rw [hfc], ?_⟩
  rw [hfc]
  intro t ht
  rcases List.mem_append.mp ht with h | h
  · exact runLoop_reasons cfg initial bars t h
  · rw [List.mem_singleton.mp h]
    unfold exitReasons mkTrade
    simp

/-- Witness for C2: a two-bar run that buys on the first bar and holds to the
end is force-closed at the final close with reason end_of_backtest, and the
final equity point is the realized cash. -/
theorem end_of_run_force_close_witness :
    (simulate_trades cfgDefaults 10000 barsTwo).trades =
      (runLoop cfgDefaults 10000 barsTwo).trades ++
        [mkTrade ⟨100, 10, 0⟩ (1 : ℕ) (10 : ℚ) ("end_of_backtest")] ∧
    (simulate_trades cfgDefaults 10000 barsTwo).capital =
      (runLoop cfgDefaults 10000 barsTwo).capital + (10 : ℚ) * (100 : ℕ) ∧
    (simulate_trades cfgDefaults 10000 barsTwo).position = none ∧
    (simulate_trades cfgDefaults 10000 barsTwo).portfolio_values =
      (runLoop cfgDefaults 10000 barsTwo).portfolio_values.dropLast ++
        [(runLoop cfgDefaults 10000 barsTwo).capital + (10 : ℚ) * (100 : ℕ)] ∧
    ∀ t ∈ (simulate_trades cfgDefaults 10000 barsTwo).trades,
      t.exit_reason ∈ exitReasons :=
  end_of_run_force_close cfgDefaults 10000 barsTwo ⟨100, 10, 0⟩ ⟨1, 10, 0⟩
    (by with_unfolding_all decide) (by with_unfolding_all decide)

/-- The claim's per-trade wellformedness, weakened to entry ≤ exit (the
same-bar force close makes them equal). -/
def goodTrade (t : Trade) : Prop :=
  t.entry_time ≤ t.exit_time ∧ 0 < t.shares ∧ 0 < t.entry_price

/-- One step preserves per-trade wellformedness and produces only positions
opened at the current bar (or keeps the old one). -/
theorem step_good (cfg : SimConfig) (st : SimState) (b : SignalBar) (_hc : 0 < b.close)
    (hst : ∀ p, st.position = some p →
      0 < p.shares ∧ 0 < p.entry_price ∧ p.entry_time ≤ b.timestamp)
    (htr : ∀ t ∈ st.trades, goodTrade t) :
    (∀ t ∈ (step cfg st b).trades, goodTrade t) ∧
    (∀ p, (step cfg st b).position = some p →
      st.position = some p ∨
        (0 < p.shares ∧ p.entry_price = b.close ∧ p.entry_time = b.timestamp)) := by
  have hceC : ∀ q, (checkExits cfg st b).position = some q → st.position = some q := by
    intro q hq
    unfold checkExits at hq
    rcases hps : st.position with _ | p
    · simp only [hps] at hq
      exact Option.noConfusion hq
    · simp only [hps] at hq
      split at hq
      · exact Option.noConfusion hq
      · exact hps.symm.trans hq
  have hceT : ∀ t ∈ (checkExits cfg st b).trades, goodTrade t := by
    intro t ht
    unfold checkExits at ht
    rcases hps : st.position with _ | p
    · simp only [hps] at ht
      exact htr t ht
    · simp only [hps] at ht
      split at ht
      · rcases List.mem_append.mp ht with h | h
        · exact htr t h
        · rw [List.mem_singleton.mp h]
          obtain ⟨h1, h2, h3⟩ := hst p hps
          exact ⟨h3, h1, h2⟩
      · exact htr t ht
  constructor
  · intro t ht
    have ht2 : t ∈ (tradeActions cfg (checkExits cfg st b) b).trades := ht
    rcases hps : (checkExits cfg st b).position with _ | p
    · unfold tradeActions at ht2
      simp only [hps] at ht2
      repeat' split at ht2
      all_goals exact hceT t ht2
    · unfold tradeActions at ht2
      simp only [hps] at ht2
      split at ht2
      · rcases List.mem_append.mp ht2 with h | h
        · exact hceT t h
        · rw [List.mem_singleton.mp h]
          obtain ⟨h1, h2, h3⟩ := hst p (hceC p hps)
          exact ⟨h3, h1, h2⟩
      · exact hceT t ht2
  · intro q hq
    have hq2 : (tradeActions cfg (checkExits cfg st b) b).position = some q := hq
    rcases hps : (checkExits cfg st b).position with _ | p
    · unfold tradeActions at hq2
      simp only [hps] at hq2
      split at hq2
      · split at hq2
        · split at hq2
          · rename_i hcond
            right
            have hxq : (⟨(codeShares cfg (checkExits cfg st b).capital b.close).toNat,
                b.close, b.timestamp⟩ : Position) = q := Option.some.inj hq2
            cases hxq
            refine ⟨?_, rfl, rfl⟩
            exact Int.lt_toNat.mpr (by exact_mod_cast hcond.1)
          · rw [hps] at hq2
            cases hq2
        · rw [hps] at hq2
          cases hq2
      · rw [hps] at hq2
        cases hq2
    · unfold tradeActions at hq2
      simp only [hps] at hq2
      split at hq2
      · cases hq2
      · exact Or.inl (hceC q hq2)

/-- Through the whole bar loop, on sorted positive-price bars, every recorded
trade is wellformed and any open position was entered no later than the last
bar. -/
theorem loop_good (cfg : SimConfig) :
    ∀ (bars : List SignalBar) (st : SimState),
      (∀ b ∈ bars, 0 < b.close) →
      bars.Pairwise (fun a b => a.timestamp < b.timestamp) →
      (∀ p, st.position = some p → 0 < p.shares ∧ 0 < p.entry_price ∧
        ∀ b ∈ bars, p.entry_time ≤ b.timestamp) →
      (∀ t ∈ st.trades, goodTrade t) →
      (∀ t ∈ (bars.foldl (step cfg) st).trades, goodTrade t) ∧
      (∀ p, (bars.foldl (step cfg) st).position = some p →
        0 < p.shares ∧ 0 < p.entry_price ∧
        ∀ lb, bars.getLast? = some lb → p.entry_time ≤ lb.timestamp) := by
  intro bars
  induction bars with
  | nil =>
    intro st _ _ hpos htr
    refine ⟨htr, fun p hp => ?_⟩
    obtain ⟨h1, h2, _⟩ := hpos p hp
    exact ⟨h1, h2, fun lb hlb => by cases hlb⟩
  | cons b rest ih =>
    intro st hc hsort hpos htr
    have hcb : 0 < b.close := hc b (List.mem_cons_self b rest)
    have hcr : ∀ x ∈ rest, 0 < x.close := fun x hx => hc x (List.mem_cons_of_mem b hx)
    have hpc := List.pairwise_cons.mp hsort
    have hsg := step_good cfg st b hcb
      (fun p hp => ⟨(hpos p hp).1, (hpos p hp).2.1,
        (hpos p hp).2.2 b (List.mem_cons_self b rest)⟩) htr
    have hpos2 : ∀ p, (step cfg st b).position = some p →
        0 < p.shares ∧ 0 < p.entry_price ∧ ∀ x ∈ rest, p.entry_time ≤ x.timestamp := by
      intro p hp
      rcases hsg.2 p hp with hold | ⟨h1, h2, h3⟩
      · obtain ⟨a1, a2, a3⟩ := hpos p hold
        exact ⟨a1, a2, fun x hx => a3 x (List.mem_cons_of_mem b hx)⟩
      · refine ⟨h1, ?_, fun x hx => ?_⟩
        · rw [h2]
          exact hcb
        · rw [h3]
          exact (hpc.1 x hx).le
    have ihr := ih (step cfg st b) hcr hpc.2 hpos2 hsg.1
    refine ⟨ihr.1, ?_⟩
    intro p hp
    rcases rest with _ | ⟨r0, rs⟩
    · have hp2 : (step cfg st b).position = some p := hp
      obtain ⟨a1, a2, _⟩ := hpos2 p hp2
      refine ⟨a1, a2, fun lb hlb => ?_⟩
      have hlb2 : b = lb := by simpa using hlb
      rcases hsg.2 p hp2 with hold | ⟨_, _, h3⟩
      · exact hlb2 ▸ ((hpos p hold).2.2 b (List.mem_cons_self b []))
      · rw [h3, hlb2]
    · obtain ⟨a1, a2, a3⟩ := ihr.2 p hp
      refine ⟨a1, a2, fun lb hlb => a3 lb ?_⟩
      rw [List.getLast?_cons_cons] at hlb
      exact hlb

/-- Counterexample to claim C3 as stated: a single Bar-invariant-satisfying
buy bar at timestamp 5 opens a position that the end-of-run close exits on
the same bar, so the recorded trade has exit_time = entry_time = 5, not
exit_time > entry_time. -/
theorem same_bar_trade_cex :
    (∀ b ∈ barsOne, 0 < b.close) ∧
    barsOne.Pairwise (fun a b => a.timestamp < b.timestamp) ∧
    (simulate_trades cfgDefaults 10000 barsOne).trades.map
      (fun t => (t.entry_time, t.exit_time)) = [((5 : ℕ), (5 : ℕ))] ∧
    ¬ ((5 : ℕ) < 5) := by
  refine ⟨by with_unfolding_all decide, by with_unfolding_all decide,
    by with_unfolding_all decide, by decide⟩

/-- Claim C3 (amended): on any bar sequence satisfying the Bar invariant
(strictly increasing timestamps, positive prices), every recorded trade —
the end-of-run force close included — has exit_time ≥ entry_time, shares > 0
and entry_price > 0; equality of the times occurs only when the entry bar is
the final bar. -/
theorem trade_fields_wellformed (cfg : SimConfig) (initial : ℚ) (bars : List SignalBar)
    (hc : ∀ b ∈ bars, 0 < b.close)
    (hsort : bars.Pairwise (fun a b => a.timestamp < b.timestamp)) :
    ∀ t ∈ (simulate_trades cfg initial bars).trades,
      t.entry_time ≤ t.exit_time ∧ 0 < t.shares ∧ 0 < t.entry_price := by
  have main := loop_good cfg bars (initState initial) hc hsort
    (by intro p hp; cases hp) (by intro t ht; cases ht)
  intro t ht
  unfold simulate_trades forceClose at ht
  rcases hp : (runLoop cfg initial bars).position with _ | p
  · simp only [hp] at ht
    exact main.1 t ht
  · rcases hl : bars.getLast? with _ | lb
    · simp only [hp, hl] at ht
      exact main.1 t ht
    · simp only [hp, hl] at ht
      rcases List.mem_append.mp ht with h | h
      · exact main.1 t h
      · rw [List.mem_singleton.mp h]
        obtain ⟨a1, a2, a3⟩ := main.2 p hp
        exact ⟨a3 lb hl, a1, a2⟩

/-- Witness for C3: the same-bar force-closed trade of the one-bar run
satisfies the amended bounds with exit_time = entry_time = 5. -/
theorem trade_fields_wellformed_witness :
    (⟨5, 5, 10, 10, 100, 0, 0, "end_of_backtest"⟩ : Trade).entry_time ≤
      (⟨5, 5, 10, 10, 100, 0, 0, "end_of_backtest"⟩ : Trade).exit_time ∧
    0 < (⟨5, 5, 10, 10, 100, 0, 0, "end_of_backtest"⟩ : Trade).shares ∧
    0 < (⟨5, 5, 10, 10, 100, 0, 0, "end_of_backtest"⟩ : Trade).entry_price :=
  trade_fields_wellformed cfgDefaults 10000 barsOne (by with_unfolding_all decide)
    (by with_unfolding_all decide) ⟨5, 5, 10, 10, 100, 0, 0, "end_of_backtest"⟩
    (by with_unfolding_all decide)

/-- The value locked in the open position at its entry price. -/
def lockedValue (st : SimState) : ℚ :=
  match st.position with
  | some p => (p.shares : ℚ) * p.entry_price
  | none => 0

/-- Cash plus locked value minus the realized pnl so far: the conserved
quantity of the simulator. -/
def netValue (st : SimState) : ℚ :=
  st.capital + lockedValue st - ((st.trades.map Trade.pnl).sum)

theorem checkExits_net (cfg : SimConfig) (st : SimState) (bar : SignalBar) :
    netValue (checkExits cfg st bar) = netValue st := by
  unfold checkExits
  rcases hps : st.position with _ | p
  · simp only [hps]
  · simp only [hps]
    split
    · unfold netValue lockedValue
      simp only [hps]
      simp [mkTrade]
      ring
    · rfl

theorem tradeActions_net (cfg : SimConfig) (st : SimState) (bar : SignalBar) :
    netValue (tradeActions cfg st bar) = netValue st := by
  unfold tradeActions
  rcases hps : st.position with _ | p
  · simp only [hps]
    split
    · split
      · split
        · rename_i hcond
          unfold netValue lockedValue
          simp only [hps]
          have hcast : (((codeShares cfg st.capital bar.close).toNat : ℕ) : ℚ) =
              ((codeShares cfg st.capital bar.close : ℤ) : ℚ) := by
            exact_mod_cast congrArg (fun z : ℤ => (z : ℚ))
              (Int.toNat_of_nonneg hcond.1.le)
          rw [hcast]
          ring
        · rfl
      · rfl
    · rfl
  · simp only [hps]
    split
    · unfold netValue lockedValue
      simp only [hps]
      simp [mkTrade]
      ring
    · rfl

theorem recordValue_net (st : SimState) (bar : SignalBar) :
    netValue (recordValue st bar) = netValue st := rfl

theorem step_net (cfg : SimConfig) (st : SimState) (bar : SignalBar) :
    netValue (step cfg st bar) = netValue st := by
  unfold step
  rw [recordValue_net, tradeActions_net, checkExits_net]

theorem runLoop_net (cfg : SimConfig) :
    ∀ (bars : List SignalBar) (st : SimState),
      netValue (bars.foldl (step cfg) st) = netValue st := by
  intro bars
  induction bars with
  | nil => intro st; rfl
  | cons b bs ih =>
    intro st
    rw [List.foldl_cons, ih, step_net]

theorem forceClose_net (st : SimState) (bars : List SignalBar) :
    netValue (forceClose st bars) = netValue st := by
  unfold forceClose
  rcases hps : st.position with _ | p
  · rcases hl : bars.getLast? with _ | lb <;> simp only [hps, hl]
  · rcases hl : bars.getLast? with _ | lb
    · simp only [hps, hl]
    · simp only [hps, hl]
      unfold netValue lockedValue
      simp only [hps]
      simp [mkTrade]
      ring

/-- After the end-of-run close the simulator never holds a position. -/
theorem simulate_position_flat (cfg : SimConfig) (initial : ℚ) (bars : List SignalBar) :
    (simulate_trades cfg initial bars).position = none := by
  unfold simulate_trades forceClose
  rcases hp : (runLoop cfg initial bars).position with _ | p
  · rcases hl : bars.getLast? with _ | lb <;> simp only [hp, hl]
  · rcases hl : bars.getLast? with _ | lb
    · have hb : bars = [] := List.getLast?_eq_none_iff.mp hl
      rw [hb] at hp
      exact Option.noConfusion hp
    · simp only [hp, hl]

/-- After a step that ends Flat, the last recorded portfolio value is the
running capital. -/
theorem step_pv_last (cfg : SimConfig) (st : SimState) (b : SignalBar)
    (hp : (step cfg st b).position = none) :
    (step cfg st b).portfolio_values.getLastD 0 = (step cfg st b).capital := by
  have hp2 : (tradeActions cfg (checkExits cfg st b) b).position = none := hp
  show ((tradeActions cfg (checkExits cfg st b) b).portfolio_values ++
      [(tradeActions cfg (checkExits cfg st b) b).capital +
        (match (tradeActions cfg (checkExits cfg st b) b).position with
          | some p => (p.shares : ℚ) * b.close
          | none => 0)]).getLastD 0 =
    (tradeActions cfg (checkExits cfg st b) b).capital
  rw [List.getLastD_concat, hp2]
  simp

theorem runLoop_pv_last (cfg : SimConfig) (initial : ℚ) (bars : List SignalBar)
    (hne : bars ≠ []) (hp : (runLoop cfg initial bars).position = none) :
    (runLoop cfg initial bars).portfolio_values.getLastD 0 =
      (runLoop cfg initial bars).capital := by
  rcases List.eq_nil_or_concat bars with hb | ⟨bs, b, hb⟩
  · exact absurd hb hne
  · have hsplit : runLoop cfg initial bars = step cfg (runLoop cfg initial bs) b := by
      rw [hb]
      unfold runLoop
      rw [List.concat_eq_append, List.foldl_append]
      rfl
    rw [hsplit] at hp ⊢
    exact step_pv_last cfg _ b hp

/-- The final recorded equity point is the final capital (on nonempty input). -/
theorem simulate_pv_last (cfg : SimConfig) (initial : ℚ) (bars : List SignalBar)
    (hne : bars ≠ []) :
    (simulate_trades cfg initial bars).portfolio_values.getLastD 0 =
      (simulate_trades cfg initial bars).capital := by
  unfold simulate_trades forceClose
  rcases hp : (runLoop cfg initial bars).position with _ | p
  · rcases hl : bars.getLast? with _ | lb <;> simp only [hp, hl] <;>
      exact runLoop_pv_last cfg initial bars hne hp
  · rcases hl : bars.getLast? with _ | lb
    · exact absurd (List.getLast?_eq_none_iff.mp hl) hne
    · simp only [hp, hl]
      exact List.getLastD_concat _ _ _

/-- Claim C10: the simulator conserves capital — after the end-of-run close
the state is Flat, the final cash equals initial capital plus the summed pnl
of all recorded trades, and the reported final_capital equals the same
quantity. -/
theorem capital_conservation (cfg : SimConfig) (initial : ℚ) (bars : List SignalBar) :
    (simulate_trades cfg initial bars).position = none ∧
    (simulate_trades cfg initial bars).capital =
      initial + ((simulate_trades cfg initial bars).trades.map Trade.pnl).sum ∧
    (calculate_metrics initial (simulate_trades cfg initial bars).trades
        (simulate_trades cfg initial bars).portfolio_values).final_capital =
      initial + ((simulate_trades cfg initial bars).trades.map Trade.pnl).sum := by
  have hpos := simulate_position_flat cfg initial bars
  have hnet : netValue (simulate_trades cfg initial bars) = initial := by
    unfold simulate_trades
    rw [forceClose_net]
    rw [show runLoop cfg initial bars = bars.foldl (step cfg) (initState initial) from rfl]
    rw [runLoop_net]
    unfold netValue lockedValue initState
    simp
  have hlocked : lockedValue (simulate_trades cfg initial bars) = 0 := by
    unfold lockedValue
    rw [hpos]
  have hcap : (simulate_trades cfg initial bars).capital =
      initial + ((simulate_trades cfg initial bars).trades.map Trade.pnl).sum := by
    unfold netValue at hnet
    rw [hlocked] at hnet
    linarith
  refine ⟨hpos, hcap, ?_⟩
  by_cases ht : (simulate_trades cfg initial bars).trades = []
  · rw [ht]
    unfold calculate_metrics
    simp
  · have hbne : bars ≠ [] := by
      intro hb
      rw [hb] at ht
      exact ht rfl
    have hfc : (calculate_metrics initial (simulate_trades cfg initial bars).trades
        (simulate_trades cfg initial bars).portfolio_values).final_capital =
        (simulate_trades cfg initial bars).portfolio_values.getLastD 0 := by
      unfold calculate_metrics
      rw [if_neg ht]
    rw [hfc, simulate_pv_last cfg initial bars hbne, hcap]

end Stocker
